import Mathlib

/-!
Shallow embedding of the talktosc library (src/apdus.rs, src/tlvs.rs,
src/response.rs, src/errors.rs) over `Nat`-valued bytes, together with
theorems settling the specification claims about it.

Bytes are modelled as `Nat`; wherever the Rust code performs a narrowing
cast (`as u8`, `as u16`) the embedding takes the corresponding remainder
(`% 256`, `% 65536`).  Rust operations that can panic (out-of-bounds
slicing or draining, `Vec` indexing on an empty vector, `Result::unwrap`
on an `Err`) are modelled by a distinguished `panic` outcome.
-/

/-- Outcome of a fallible Rust computation: a normal result, a typed
`Err` carrying the error message string used by the source, or a panic
(out-of-bounds slice/drain, `unwrap` on an `Err`, ...). -/
inductive PResult (α : Type) where
  | ok : α → PResult α
  | err : String → PResult α
  | panic : PResult α
deriving Repr, DecidableEq

/-- The TLV structure of src/tlvs.rs (lines 11-20): tag, declared length,
value bytes, and the list of sub-TLVs for composite data objects. -/
structure TLV where
  t : Nat
  l : Nat
  v : List Nat
  subs : List TLV

/-- Tag decoding stage of `read_single` (src/tlvs.rs lines 169-185):
pops the first byte as the tag, computes the composite flag from bit
0x20 of that first byte, and when the low 5 bits of the first byte are
all set pops a second tag byte, failing if its low 5 bits are also all
set.  Returns the 16-bit tag value, the composite flag and the
remaining bytes.  Popping from an empty buffer (the `get` helper,
lines 128-131) panics. -/
def readTag : List Nat → PResult (Nat × Bool × List Nat)
  | [] => .panic
  | t0 :: data =>
    let t := t0 &&& 0xff
    let composite : Bool := t &&& 0x20 == 0x20
    if t &&& 0x1f == 0x1f then
      match data with
      | [] => .panic
      | t2 :: data2 =>
        let t2 := t2 &&& 0xff
        if t2 &&& 0x1f == 0x1f then
          .err "Only two bytes for tags"
        else
          .ok ((t <<< 8) ||| (t2 &&& 0x7f), composite, data2)
    else
      .ok (t, composite, data)

/-- Length decoding stage of `read_single` (src/tlvs.rs lines 189-211):
a first byte below 0x80 is the length itself, 0x81 is followed by a one
byte length, 0x82 by a two byte big-endian length, and any other first
byte at least 0x80 is the invalid-length error. -/
def readLen : List Nat → PResult (Nat × List Nat)
  | [] => .panic
  | l0 :: data =>
    let l := l0 &&& 0xff
    if l == 0x81 then
      match data with
      | [] => .panic
      | x :: data2 => .ok (x &&& 0xff, data2)
    else if l == 0x82 then
      match data with
      | [] => .panic
      | x :: data2 =>
        match data2 with
        | [] => .panic
        | y :: data3 => .ok (((x &&& 0xff) <<< 8) ||| (y &&& 0xff), data3)
    else if 0x80 ≤ l then
      .err "Invalid length field!"
    else
      .ok (l, data)

theorem readTag_ok_length {x : List Nat} {t : Nat} {c : Bool} {d : List Nat}
    (h : readTag x = .ok (t, c, d)) : d.length < x.length := by
  match x with
  | [] => simp [readTag] at h
  | t0 :: data =>
    simp only [readTag] at h
    split at h
    · match data with
      | [] => simp at h
      | t2 :: data2 =>
        simp only at h
        split at h
        · exact absurd h (by simp)
        · simp only [PResult.ok.injEq, Prod.mk.injEq] at h
          obtain ⟨-, -, rfl⟩ := h
          simp
          omega
    · simp only [PResult.ok.injEq, Prod.mk.injEq] at h
      obtain ⟨-, -, rfl⟩ := h
      simp

theorem readLen_ok_length {x : List Nat} {l : Nat} {d : List Nat}
    (h : readLen x = .ok (l, d)) : d.length < x.length := by
  match x with
  | [] => simp [readLen] at h
  | l0 :: data =>
    simp only [readLen] at h
    split at h
    · match data with
      | [] => simp at h
      | x :: data2 =>
        simp only [PResult.ok.injEq, Prod.mk.injEq] at h
        obtain ⟨-, rfl⟩ := h
        simp
        omega
    · split at h
      · match data with
        | [] => simp at h
        | x :: data2 =>
          match data2 with
          | [] => simp at h
          | y :: data3 =>
            simp only [PResult.ok.injEq, Prod.mk.injEq] at h
            obtain ⟨-, rfl⟩ := h
            simp
            omega
      · split at h
        · exact absurd h (by simp)
        · simp only [PResult.ok.injEq, Prod.mk.injEq] at h
          obtain ⟨-, rfl⟩ := h
          simp

mutual

/-- Embedding of `read_single` (src/tlvs.rs lines 168-232).  After the
tag and length stages, `len` value bytes are sliced out of the
remaining buffer: for a composite tag they are copied
(`data[..len]`, the buffer is left untouched), otherwise they are
drained from the front.  Both slicing operations panic when `len`
exceeds the remaining length.  When `recursive && composite` the subs
are produced by running `read_list` over the whole remaining buffer
`data` and the reported remainder is empty; `read_list`'s own panics
propagate. -/
def read_single (orig_data : List Nat) (recursive : Bool) : PResult (TLV × List Nat) :=
  match htag : readTag orig_data with
  | .panic => .panic
  | .err e => .err e
  | .ok (t, composite, data1) =>
    match hlen : readLen data1 with
    | .panic => .panic
    | .err e => .err e
    | .ok (l, data) =>
      if l ≤ data.length then
        if composite then
          -- v = data[..len].iter().cloned().collect() : a copy, data unchanged
          if recursive then
            match read_list data true with
            | .ok subs => .ok (⟨t, l, data.take l, subs⟩, [])
            | _ => .panic
          else
            .ok (⟨t, l, data.take l, []⟩, data)
        else
          -- v = data.drain(0..len) : the value bytes are consumed
          .ok (⟨t, l, data.take l, []⟩, data.drop l)
      else
        .panic
termination_by 2 * orig_data.length
decreasing_by
  have h1 := readTag_ok_length htag
  have h2 := readLen_ok_length hlen
  omega

/-- Embedding of `read_list` (src/tlvs.rs lines 254-270): while the
buffer is non-empty, skip a single leading 0x00/0xFF filler byte if
present, then unconditionally `read_single(..).unwrap()` (an `Err`
becomes a panic) and continue on the reported remainder.  The
`rem.length` guard mirrors nothing in the source; it is discharged as
always-true by `read_single_ok_length` below. -/
def read_list (orig_data : List Nat) (recursive : Bool) : PResult (List TLV) :=
  match orig_data with
  | [] => .ok []
  | b :: rest =>
    match read_single (if b == 0xff || b == 0x00 then rest else b :: rest) recursive with
    | .ok (tlv, rem) =>
      if hrem : rem.length < (b :: rest).length then
        match read_list rem recursive with
        | .ok tail => .ok (tlv :: tail)
        | _ => .panic
      else
        .panic
    | _ => .panic
termination_by 2 * orig_data.length + 1
decreasing_by
  · split
    · simp
      omega
    · simp
  · simp at hrem ⊢
    omega

end

/-- Unfolding lemma: a panic while reading the tag propagates. -/
theorem read_single_tag_panic {x : List Nat} (r : Bool)
    (h : readTag x = .panic) : read_single x r = .panic := by
  rw [read_single]
  split
  · rfl
  · simp_all
  · simp_all

/-- Unfolding lemma: an error while reading the tag propagates. -/
theorem read_single_tag_err {x : List Nat} {e : String} (r : Bool)
    (h : readTag x = .err e) : read_single x r = .err e := by
  rw [read_single]
  split
  · simp_all
  · simp_all
  · simp_all

/-- Unfolding lemma: a panic while reading the length propagates. -/
theorem read_single_len_panic {x : List Nat} {t : Nat} {c : Bool} {d1 : List Nat} (r : Bool)
    (h1 : readTag x = .ok (t, c, d1)) (h2 : readLen d1 = .panic) :
    read_single x r = .panic := by
  rw [read_single]
  split <;> simp_all
  split <;> simp_all

/-- Unfolding lemma: an error while reading the length propagates. -/
theorem read_single_len_err {x : List Nat} {t : Nat} {c : Bool} {d1 : List Nat} {e : String}
    (r : Bool) (h1 : readTag x = .ok (t, c, d1)) (h2 : readLen d1 = .err e) :
    read_single x r = .err e := by
  rw [read_single]
  split <;> simp_all
  split <;> simp_all

/-- Unfolding lemma for `read_single` once tag and length have been
decoded successfully: the remaining behaviour is the value-slicing and
recursion step of src/tlvs.rs lines 214-231. -/
theorem read_single_step {x : List Nat} {t : Nat} {c : Bool} {d1 : List Nat} {l : Nat}
    {d : List Nat} (r : Bool)
    (h1 : readTag x = .ok (t, c, d1)) (h2 : readLen d1 = .ok (l, d)) :
    read_single x r =
      if l ≤ d.length then
        if c then
          if r then
            match read_list d true with
            | .ok subs => .ok (⟨t, l, d.take l, subs⟩, [])
            | _ => .panic
          else
            .ok (⟨t, l, d.take l, []⟩, d)
        else
          .ok (⟨t, l, d.take l, []⟩, d.drop l)
      else
        .panic := by
  rw [read_single]
  split <;> simp_all
  split <;> simp_all

/-- A successful `read_single` consumes at least the tag and length
bytes, so the reported remainder is strictly shorter than the input. -/
theorem read_single_ok_length {x : List Nat} {r : Bool} {tlv : TLV} {rem : List Nat}
    (h : read_single x r = .ok (tlv, rem)) : rem.length < x.length := by
  match h1 : readTag x with
  | .panic => rw [read_single_tag_panic r h1] at h; exact absurd h (by simp)
  | .err e => rw [read_single_tag_err r h1] at h; exact absurd h (by simp)
  | .ok (t, c, d1) =>
    match h2 : readLen d1 with
    | .panic => rw [read_single_len_panic r h1 h2] at h; exact absurd h (by simp)
    | .err e => rw [read_single_len_err r h1 h2] at h; exact absurd h (by simp)
    | .ok (l, d) =>
      have hx1 := readTag_ok_length h1
      have hx2 := readLen_ok_length h2
      rw [read_single_step r h1 h2] at h
      split at h
      · split at h
        · split at h
          · split at h
            · simp only [PResult.ok.injEq, Prod.mk.injEq] at h
              obtain ⟨-, rfl⟩ := h
              simp only [List.length_nil]
              omega
            · exact absurd h (by simp)
          · simp only [PResult.ok.injEq, Prod.mk.injEq] at h
            obtain ⟨-, rfl⟩ := h
            omega
        · simp only [PResult.ok.injEq, Prod.mk.injEq] at h
          obtain ⟨-, rfl⟩ := h
          have := List.length_drop l d
          omega
      · exact absurd h (by simp)

/-- Unfolding lemma: `read_list` on the empty buffer returns the empty
forest. -/
theorem read_list_nil (r : Bool) : read_list [] r = .ok [] := by
  rw [read_list]

/-- Unfolding lemma for one iteration of the `read_list` loop
(src/tlvs.rs lines 258-268): skip a single leading filler byte if
present, then `read_single(..).unwrap()` and continue on the reported
remainder. -/
theorem read_list_cons (b : Nat) (rest : List Nat) (r : Bool) :
    read_list (b :: rest) r =
      match read_single (if b == 0xff || b == 0x00 then rest else b :: rest) r with
      | .ok (tlv, rem) =>
        match read_list rem r with
        | .ok tail => .ok (tlv :: tail)
        | _ => .panic
      | _ => .panic := by
  rw [read_list]
  match h : read_single (if b == 0xff || b == 0x00 then rest else b :: rest) r with
  | .ok (tlv, rem) =>
    have hlt : rem.length < (b :: rest).length := by
      have := read_single_ok_length h
      split at this
      · simp only [List.length_cons]
        omega
      · exact this
    simp only [dif_pos hlt]
  | .err e => rfl
  | .panic => rfl

/-- The APDU structure of src/apdus.rs (lines 14-25): the four header
bytes, the original payload, and the chained wire packets `iapdus`. -/
structure APDU where
  cla : Nat
  ins : Nat
  p1 : Nat
  p2 : Nat
  data : List Nat
  iapdus : List (List Nat)
deriving Repr, DecidableEq

/-- The while loop of `APDU::new` (src/apdus.rs lines 62-72), with the
loop variables `index` and `oindex` made explicit: as long as the
payload length exceeds `index * 254`, a chaining packet
`[0x10, ins, p1, p2, 254]` followed by `data[oindex..index*254]` is
emitted; afterwards the final packet
`[cla, ins, p1, p2, (data.len() - oindex) as u8]` followed by
`data[oindex..]` is emitted. -/
def apduLoop (cla ins p1 p2 : Nat) (data : List Nat) (index oindex : Nat) :
    List (List Nat) :=
  if data.length > index * 254 then
    (0x10 :: ins :: p1 :: p2 :: 254 :: ((data.drop oindex).take (index * 254 - oindex)))
      :: apduLoop cla ins p1 p2 data (index + 1) (index * 254)
  else
    [cla :: ins :: p1 :: p2 :: ((data.length - oindex) % 256) :: data.drop oindex]
termination_by data.length - index * 254
decreasing_by
  simp_wf
  omega

/-- Embedding of `APDU::new` (src/apdus.rs lines 52-81): a missing
payload becomes the empty payload, and the chained packets are built by
the loop starting from `index = 1`, `oindex = 0`. -/
def APDU.new (cla ins p1 p2 : Nat) (inputdata : Option (List Nat)) : APDU :=
  let data := match inputdata with
    | some d => d
    | none => []
  { cla := cla, ins := ins, p1 := p1, p2 := p2, data := data,
    iapdus := apduLoop cla ins p1 p2 data 1 0 }

/-- Embedding of `APDU::create_big_apdu` (src/apdus.rs lines 84-111):
`len = data.len() as u16` truncates the payload length to 16 bits; a
length above 0xFF is encoded as a 0x00 marker followed by the two
big-endian bytes of `len`, otherwise as the single byte `len as u8`;
the whole payload follows in a single packet. -/
def APDU.create_big_apdu (cla ins p1 p2 : Nat) (data : List Nat) : APDU :=
  let len := data.length % 65536
  let res := [cla, ins, p1, p2]
  let res := if len > 0xFF then
      -- len.to_be_bytes() for a u16 is [len / 256, len % 256]
      res ++ [0x00, len / 256, len % 256]
    else
      -- len as u8 (here len ≤ 0xFF, so the cast is the identity)
      res ++ [len % 256]
  { cla := cla, ins := ins, p1 := p1, p2 := p2, data := data,
    iapdus := [res ++ data] }

/-- The error enumeration of src/errors.rs, together with the
`ResponseError` variant that src/response.rs line 21 constructs for a
too-short reply (carrying the offending length). -/
inductive TalktoSCError where
  | ContextError : String → TalktoSCError
  | ReaderError : String → TalktoSCError
  | MissingReaderError : TalktoSCError
  | MissingSmartCardError : TalktoSCError
  | SmartCardConnectionError : String → TalktoSCError
  | ResponseError : Nat → TalktoSCError
deriving Repr, DecidableEq

/-- The Response structure of src/response.rs (lines 10-14): the data
bytes plus the two trailing status bytes. -/
structure Response where
  data : List Nat
  sw1 : Nat
  sw2 : Nat
deriving Repr, DecidableEq

/-- Embedding of `Response::new` (src/response.rs lines 18-27): an
input of fewer than 2 bytes is rejected with `ResponseError(length)`;
otherwise `data` is everything except the last two bytes and `sw1`,
`sw2` are the bytes at positions `length - 2` and `length - 1`. -/
def Response.new (input : List Nat) : Except TalktoSCError Response :=
  let length := input.length
  if length < 2 then
    .error (.ResponseError length)
  else
    .ok { data := input.take (length - 2),
          sw1 := input.getD (length - 2) 0,
          sw2 := input.getD (length - 1) 0 }

/-- Embedding of `Response::is_okay` (src/response.rs lines 30-36). -/
def Response.is_okay (self : Response) : Bool :=
  if self.sw1 == 0x90 && self.sw2 == 0x00 then true else false

/-- Embedding of `Response::availble_response` (src/response.rs lines
45-50): `Some(sw2)` exactly for `sw1 = 0x61`. -/
def Response.availble_response (self : Response) : Option Nat :=
  match self.sw1, self.sw2 with
  | 0x61, value => some value
  | _, _ => none

/-- Closed form of the `APDU::new` loop: starting at `index = j + 1`,
`oindex = j * 254`, the loop emits one chaining packet per 254-byte
slice of the payload past position `j * 254` (their number is
`(L - 1) / 254` for `L` remaining bytes) followed by the final
packet carrying the remainder. -/
theorem apduLoop_closed (cla ins p1 p2 : Nat) (data : List Nat) (j k : Nat)
    (hk : k = if data.length - j * 254 = 0 then 0 else (data.length - j * 254 - 1) / 254) :
    apduLoop cla ins p1 p2 data (j + 1) (j * 254) =
      ((List.range k).map fun i =>
          0x10 :: ins :: p1 :: p2 :: 254 :: ((data.drop ((j + i) * 254)).take 254))
        ++ [cla :: ins :: p1 :: p2 :: ((data.length - j * 254 - k * 254) % 256) ::
              data.drop ((j + k) * 254)] := by
  suffices H : ∀ n j k, data.length - j * 254 ≤ n →
      k = (if data.length - j * 254 = 0 then 0 else (data.length - j * 254 - 1) / 254) →
      apduLoop cla ins p1 p2 data (j + 1) (j * 254) =
        ((List.range k).map fun i =>
            0x10 :: ins :: p1 :: p2 :: 254 :: ((data.drop ((j + i) * 254)).take 254))
          ++ [cla :: ins :: p1 :: p2 :: ((data.length - j * 254 - k * 254) % 256) ::
                data.drop ((j + k) * 254)] by
    exact H data.length j k (by omega) hk
  intro n
  induction n with
  | zero =>
    intro j k hn hk
    rw [if_pos (by omega)] at hk
    rw [apduLoop, if_neg (by omega)]
    subst hk
    simp
  | succ n ih =>
    intro j k hn hk
    rw [apduLoop]
    by_cases hc : data.length > (j + 1) * 254
    · rw [if_pos hc]
      rw [if_neg (by omega)] at hk
      have hk' : (if data.length - (j + 1) * 254 = 0 then 0
          else (data.length - (j + 1) * 254 - 1) / 254)
          = (data.length - (j + 1) * 254 - 1) / 254 := if_neg (by omega)
      rw [ih (j + 1) ((data.length - (j + 1) * 254 - 1) / 254) (by omega) hk'.symm]
      have hkk : k = (data.length - (j + 1) * 254 - 1) / 254 + 1 := by omega
      have e1 : (j + 1) * 254 - j * 254 = 254 := by omega
      have e2 : ∀ i : Nat, j + 1 + i = j + (i + 1) := fun i => by omega
      have e3 : data.length - (j + 1) * 254 - (data.length - (j + 1) * 254 - 1) / 254 * 254
          = data.length - j * 254 - k * 254 := by omega
      have e4 : j + 1 + (data.length - (j + 1) * 254 - 1) / 254 = j + k := by omega
      have e5 : data.length - j * 254 - ((data.length - (j + 1) * 254 - 1) / 254 + 1) * 254
          = data.length - j * 254 - k * 254 := by omega
      rw [hkk, e1, List.range_succ_eq_map, List.map_cons, List.map_map]
      simp only [Function.comp_def, Nat.succ_eq_add_one, e2, e3, e4, e5, Nat.add_zero,
        List.cons_append]
    · rw [if_neg hc]
      have hL : data.length - j * 254 ≤ 254 := by omega
      have hk0 : k = 0 := by
        rcases Nat.eq_zero_or_pos (data.length - j * 254) with h0 | h0
        · rw [if_pos h0] at hk
          exact hk
        · rw [if_neg (by omega)] at hk
          rw [hk]
          exact Nat.div_eq_of_lt (by omega)
      subst hk0
      simp

/-- Concatenating the 254-byte chunks at positions `0, 254, ...` and
the remainder past position `k * 254` reassembles the payload. -/
theorem chunks_flatten (k : Nat) (data : List Nat) :
    (((List.range k).map fun i => (data.drop (i * 254)).take 254).flatten)
      ++ data.drop (k * 254) = data := by
  induction k with
  | zero => simp
  | succ k ih =>
    rw [List.range_succ, List.map_append, List.flatten_append]
    have e2 : data.drop ((k + 1) * 254) = (data.drop (k * 254)).drop 254 := by
      have e : (k + 1) * 254 = k * 254 + 254 := by ring
      rw [e, ← List.drop_drop]
    rw [e2]
    simp only [List.map_cons, List.map_nil, List.flatten_cons, List.flatten_nil,
      List.append_nil, List.append_assoc, List.take_append_drop]
    exact ih

/-- C1: for every class byte `cla`, instruction `ins`, parameters `p1`,
`p2` and payload of length `L`, `APDU::new` produces a non-empty packet
sequence `iapdus` whose payload slices concatenate, in order, to
exactly the original payload; when `L > 0` it contains exactly
`(L - 1) / 254` non-final packets, each with header
`[0x10, ins, p1, p2, 0xFE]` carrying exactly 254 payload bytes,
followed by one final packet with header `[cla, ins, p1, p2, r]`
carrying the remaining `r` payload bytes with `r ≤ 254`; a payload of
length 0 (or absent) yields exactly one packet `[cla, ins, p1, p2, 0]`
with no data. -/
theorem apdu_new_packets (cla ins p1 p2 : Nat) (inputdata : Option (List Nat))
    (data : List Nat) (L k r : Nat)
    (hdata : data = (match inputdata with | some d => d | none => []))
    (hL : L = data.length)
    (hk : k = if L = 0 then 0 else (L - 1) / 254)
    (hr : r = L - k * 254) :
    (APDU.new cla ins p1 p2 inputdata).iapdus =
        ((List.range k).map fun i =>
          [0x10, ins, p1, p2, 0xFE] ++ ((data.drop (i * 254)).take 254))
        ++ [[cla, ins, p1, p2, r] ++ data.drop (k * 254)]
      ∧ ((APDU.new cla ins p1 p2 inputdata).iapdus.map fun p => p.drop 5).flatten = data
      ∧ (APDU.new cla ins p1 p2 inputdata).iapdus ≠ []
      ∧ (APDU.new cla ins p1 p2 inputdata).iapdus.length = k + 1
      ∧ r ≤ 254
      ∧ (data.drop (k * 254)).length = r
      ∧ (∀ i, i < k → ((data.drop (i * 254)).take 254).length = 254)
      ∧ (L = 0 → (APDU.new cla ins p1 p2 inputdata).iapdus = [[cla, ins, p1, p2, 0]]) := by
  subst hL
  have hk254 : k * 254 ≤ data.length ∧ r ≤ 254 := by
    rcases Nat.eq_zero_or_pos data.length with h0 | h0
    · rw [if_pos h0] at hk
      omega
    · rw [if_neg (by omega)] at hk
      have := Nat.div_mul_le_self (data.length - 1) 254
      omega
  have hnew : (APDU.new cla ins p1 p2 inputdata).iapdus
      = apduLoop cla ins p1 p2 data 1 0 := by
    simp only [APDU.new, ← hdata]
  have base := apduLoop_closed cla ins p1 p2 data 0 k (by simpa using hk)
  simp only [Nat.zero_mul, Nat.zero_add, Nat.sub_zero] at base
  have hmod : (data.length - k * 254) % 256 = r := by
    rw [← hr]
    exact Nat.mod_eq_of_lt (by omega)
  rw [hmod] at base
  have hclosed : (APDU.new cla ins p1 p2 inputdata).iapdus =
      ((List.range k).map fun i =>
        [0x10, ins, p1, p2, 0xFE] ++ ((data.drop (i * 254)).take 254))
      ++ [[cla, ins, p1, p2, r] ++ data.drop (k * 254)] := by
    rw [hnew, base]
    simp only [List.cons_append, List.nil_append]
  refine ⟨hclosed, ?_, ?_, ?_, hk254.2, ?_, ?_, ?_⟩
  · rw [hclosed]
    have hdrop5 : ∀ (a b c d e : Nat) (x : List Nat), ([a, b, c, d, e] ++ x).drop 5 = x :=
      fun _ _ _ _ _ _ => rfl
    simp only [List.map_append, List.map_map, List.map_cons, List.map_nil,
      Function.comp_def, hdrop5, List.flatten_append, List.flatten_cons,
      List.flatten_nil, List.append_nil]
    exact chunks_flatten k data
  · rw [hclosed]
    simp
  · rw [hclosed]
    simp
  · rw [List.length_drop]
    omega
  · intro i hi
    have hkpos : 0 < k := by omega
    have hL0 : data.length ≠ 0 := by
      intro h0
      rw [if_pos h0] at hk
      omega
    rw [if_neg hL0] at hk
    have hdb : k * 254 ≤ data.length - 1 := by
      rw [hk]
      exact Nat.div_mul_le_self (data.length - 1) 254
    rw [List.length_take, List.length_drop]
    omega
  · intro h0
    have hd0 : data = [] := List.eq_nil_of_length_eq_zero h0
    have hkz : k = 0 := by rw [if_pos h0] at hk; exact hk
    rw [hclosed, hd0, hkz]
    simp
    omega

/-- Witness for C1: a 300-byte payload is chained into one 254-byte
chaining packet and a 46-byte final packet. -/
theorem apdu_new_packets_witness :
    (APDU.new 5 6 7 8 (some (List.replicate 300 9))).iapdus =
      [[0x10, 6, 7, 8, 0xFE] ++ List.replicate 254 9,
       [5, 6, 7, 8, 46] ++ List.replicate 46 9] := by
  have h := apdu_new_packets 5 6 7 8 (some (List.replicate 300 9))
    (List.replicate 300 9) 300 1 46 rfl (List.length_replicate 300 9).symm
    (by norm_num) (by norm_num)
  rw [h.1]
  norm_num [List.range_succ, List.take_replicate, List.drop_replicate]

/-- Modelled from the spec: the extended length field described in the
specification ("one byte if length ≤ 255, else a 0x00 marker plus a
2-byte big-endian length"), applied to the payload's true length. -/
def specExtendedLengthField (L : Nat) : List Nat :=
  if L ≤ 255 then [L] else [0x00, L / 256, L % 256]

/-- C9 (amended): for every payload of length at most 65535,
`create_big_apdu` produces exactly one packet consisting of the header
`[cla, ins, p1, p2]`, then a length field that is a single byte equal
to the payload length when that length is at most 255 and otherwise a
0x00 marker byte followed by the 2-byte big-endian payload length,
then the full payload. -/
theorem create_big_apdu_packet (cla ins p1 p2 : Nat) (data : List Nat)
    (hlen : data.length ≤ 65535) :
    (APDU.create_big_apdu cla ins p1 p2 data).iapdus =
      [[cla, ins, p1, p2] ++ specExtendedLengthField data.length ++ data] := by
  simp only [APDU.create_big_apdu, specExtendedLengthField]
  have hm : data.length % 65536 = data.length := Nat.mod_eq_of_lt (by omega)
  rw [hm]
  by_cases h : data.length ≤ 255
  · rw [if_neg (by omega), if_pos h, Nat.mod_eq_of_lt (by omega)]
  · rw [if_pos (by omega), if_neg h]

/-- Witness for C9 (amended): a 300-byte payload gets the 3-byte
extended length field `0x00 0x01 0x2C`. -/
theorem create_big_apdu_packet_witness :
    (APDU.create_big_apdu 1 2 3 4 (List.replicate 300 5)).iapdus =
      [[1, 2, 3, 4, 0x00, 0x01, 0x2C] ++ List.replicate 300 5] := by
  have h := create_big_apdu_packet 1 2 3 4 (List.replicate 300 5)
    (by rw [List.length_replicate]; omega)
  rw [h, List.length_replicate]
  norm_num [specExtendedLengthField]

/-- Counterexample to C9 as stated: for a payload of 65536 bytes the
packet built by `create_big_apdu` does not carry the length field
prescribed for the payload's true length (the `as u16` cast wraps
65536 to 0, yielding the single length byte 0). -/
theorem create_big_apdu_cex :
    (APDU.create_big_apdu 0 0 0 0 (List.replicate 65536 0)).iapdus ≠
      [[0, 0, 0, 0] ++ specExtendedLengthField (List.replicate 65536 0).length
        ++ List.replicate 65536 0] := by
  intro h
  have hL : (APDU.create_big_apdu 0 0 0 0 (List.replicate 65536 0)).iapdus
      = [[0, 0, 0, 0] ++ [0] ++ List.replicate 65536 0] := by
    simp only [APDU.create_big_apdu]
    rw [List.length_replicate]
    norm_num
  have hR : specExtendedLengthField (List.replicate 65536 (0 : Nat)).length
      = [0x00, 256, 0] := by
    rw [List.length_replicate]
    norm_num [specExtendedLengthField]
  rw [hL, hR] at h
  have h1 : ([[0, 0, 0, 0] ++ [0] ++ List.replicate 65536 (0 : Nat)].headD []).getD 5 99
      = ([[0, 0, 0, 0] ++ [0x00, 256, 0] ++ List.replicate 65536 (0 : Nat)].headD []).getD 5 99 :=
    congrArg (fun x => (x.headD []).getD 5 99) h
  have h2 : (0 : Nat) = 256 := h1
  exact absurd h2 (by decide)

/-- C10: for every payload longer than 65535 bytes, `create_big_apdu`
encodes a length field computed from the payload length modulo 65536
rather than the true length (falling back to the single-byte form when
that residue is at most 255), while still appending the entire
payload, so the packet's declared length no longer matches the payload
it carries. -/
theorem create_big_apdu_wraps (cla ins p1 p2 : Nat) (data : List Nat)
    (hlen : data.length > 65535) :
    (APDU.create_big_apdu cla ins p1 p2 data).iapdus =
        [[cla, ins, p1, p2]
          ++ (if data.length % 65536 ≤ 255 then [data.length % 65536]
              else [0x00, data.length % 65536 / 256, data.length % 65536 % 256])
          ++ data]
      ∧ data.length % 65536 ≠ data.length := by
  constructor
  · simp only [APDU.create_big_apdu]
    by_cases h : data.length % 65536 ≤ 255
    · rw [if_neg (by omega), if_pos h, Nat.mod_eq_of_lt (by omega)]
    · rw [if_pos (by omega), if_neg h]
  · have := Nat.mod_lt data.length (show 0 < 65536 by norm_num)
    omega

/-- Witness for C10: a 65536-byte payload wraps to a declared length
of 0, encoded as the single length byte 0, with all 65536 payload
bytes still appended. -/
theorem create_big_apdu_wraps_witness :
    (APDU.create_big_apdu 0 0 0 0 (List.replicate 65536 0)).iapdus =
        [[0, 0, 0, 0, 0] ++ List.replicate 65536 0]
      ∧ (65536 : Nat) % 65536 ≠ 65536 := by
  have h := create_big_apdu_wraps 0 0 0 0 (List.replicate 65536 0)
    (by rw [List.length_replicate]; omega)
  constructor
  · rw [h.1, List.length_replicate]
    norm_num
  · norm_num

/-- Splitting a buffer of length at least 2 into its initial segment
and its last two bytes, addressed the way `Response::new` reads them. -/
theorem response_parts (input : List Nat) (h : 2 ≤ input.length) :
    input = input.take (input.length - 2)
      ++ [input.getD (input.length - 2) 0, input.getD (input.length - 1) 0] := by
  have hlen : (input.drop (input.length - 2)).length = 2 := by
    rw [List.length_drop]
    omega
  obtain ⟨a, b, hab⟩ := List.length_eq_two.mp hlen
  have htl : (input.take (input.length - 2)).length = input.length - 2 := by
    rw [List.length_take]
    omega
  have ea := List.getD_append_right (input.take (input.length - 2))
    (input.drop (input.length - 2)) 0 (input.length - 2) (by omega)
  have eb := List.getD_append_right (input.take (input.length - 2))
    (input.drop (input.length - 2)) 0 (input.length - 1) (by omega)
  rw [List.take_append_drop, htl, Nat.sub_self, hab] at ea
  rw [List.take_append_drop, htl, hab] at eb
  have h1 : input.length - 1 - (input.length - 2) = 1 := by omega
  rw [h1] at eb
  have : input = input.take (input.length - 2) ++ input.drop (input.length - 2) :=
    (List.take_append_drop (input.length - 2) input).symm
  rw [hab] at this
  rw [ea, eb]
  exact this

/-- C8: `Response::new(input)` returns the too-short error
`ResponseError(length)` exactly when the input has fewer than 2 bytes;
otherwise it returns a Response whose data is all bytes except the
last two and whose sw1, sw2 are the last two bytes, and on that
Response `is_okay()` is true if and only if (sw1, sw2) = (0x90, 0x00)
and `availble_response()` returns `Some(sw2)` if and only if
sw1 = 0x61 (`None` for every other sw1). -/
theorem response_new_spec (input : List Nat) :
    (input.length < 2 → Response.new input = .error (.ResponseError input.length))
    ∧ (2 ≤ input.length → ∃ resp : Response,
        Response.new input = .ok resp
        ∧ resp.data = input.take (input.length - 2)
        ∧ input = resp.data ++ [resp.sw1, resp.sw2]
        ∧ (resp.is_okay = true ↔ (resp.sw1 = 0x90 ∧ resp.sw2 = 0x00))
        ∧ (resp.availble_response = some resp.sw2 ↔ resp.sw1 = 0x61)
        ∧ (resp.sw1 ≠ 0x61 → resp.availble_response = none)) := by
  have hav : ∀ resp : Response,
      (resp.availble_response = some resp.sw2 ↔ resp.sw1 = 0x61)
      ∧ (resp.sw1 ≠ 0x61 → resp.availble_response = none) := by
    intro resp
    unfold Response.availble_response
    constructor
    · constructor
      · intro hsome
        split at hsome
        · assumption
        · exact absurd hsome (by simp)
      · intro h61
        split
        · simp_all
        · simp_all
    · intro h61
      split
      · simp_all
      · rfl
  have hok : ∀ resp : Response,
      resp.is_okay = true ↔ (resp.sw1 = 0x90 ∧ resp.sw2 = 0x00) := by
    intro resp
    unfold Response.is_okay
    split
    · simp_all
    · simp_all
  constructor
  · intro h
    unfold Response.new
    rw [if_pos h]
  · intro h
    refine ⟨⟨input.take (input.length - 2), input.getD (input.length - 2) 0,
      input.getD (input.length - 1) 0⟩, ?_, rfl, ?_, hok _, (hav _).1, (hav _).2⟩
    · unfold Response.new
      rw [if_neg (by omega)]
    · exact response_parts input h

/-- Witness for C8: a one-byte reply is rejected with the too-short
error, and `[0xAB, 0x61, 0x02]` parses into data `[0xAB]` with status
bytes 0x61, 0x02 (more-data-available, 2 bytes waiting). -/
theorem response_new_spec_witness :
    Response.new [0x01] = .error (.ResponseError [0x01].length)
    ∧ (∃ resp : Response, Response.new [0xAB, 0x61, 0x02] = .ok resp
        ∧ resp.data = [0xAB, 0x61, 0x02].take ([0xAB, 0x61, 0x02].length - 2)
        ∧ [0xAB, 0x61, 0x02] = resp.data ++ [resp.sw1, resp.sw2]
        ∧ (resp.is_okay = true ↔ (resp.sw1 = 0x90 ∧ resp.sw2 = 0x00))
        ∧ (resp.availble_response = some resp.sw2 ↔ resp.sw1 = 0x61)
        ∧ (resp.sw1 ≠ 0x61 → resp.availble_response = none))
    ∧ Response.new [0xAB, 0x61, 0x02] = .ok ⟨[0xAB], 0x61, 0x02⟩ :=
  ⟨(response_new_spec [0x01]).1 (by norm_num),
   (response_new_spec [0xAB, 0x61, 0x02]).2 (by norm_num),
   rfl⟩

/-- Masking a byte value with 0xff is the identity. -/
theorem and_ff_of_lt {n : Nat} (h : n < 256) : n &&& 0xff = n := by
  have h8 := Nat.and_pow_two_sub_one_eq_mod n 8
  norm_num at h8
  rw [h8]
  exact Nat.mod_eq_of_lt h

/-- Shifting a byte left by 8 and or-ing a second byte is the
big-endian combination `256 * x + y`. -/
theorem shiftLeft8_or_eq (x y : Nat) (hy : y < 256) : (x <<< 8) ||| y = 256 * x + y := by
  have h2 : y < 2 ^ 8 := by
    norm_num
    exact hy
  rw [Nat.shiftLeft_eq, Nat.mul_comm, ← Nat.mul_add_lt_is_or h2 x]

/-- Tag stage on a 1-byte tag: a first byte whose low 5 bits are not
all set is the complete tag; the composite flag is its bit 0x20. -/
theorem readTag_single {t0 : Nat} (rest : List Nat) (h : t0 < 256)
    (h5 : t0 &&& 0x1f ≠ 0x1f) :
    readTag (t0 :: rest) = .ok (t0, t0 &&& 0x20 == 0x20, rest) := by
  simp only [readTag, and_ff_of_lt h]
  rw [if_neg (by simpa using h5)]

/-- Tag stage on a 2-byte tag: when the first byte's low 5 bits are all
set and the second byte's are not, the tag value is
`(t0 <<< 8) ||| (t1 &&& 0x7f)` and the composite flag still comes from
the first byte. -/
theorem readTag_double {t0 t1 : Nat} (rest : List Nat) (h0 : t0 < 256) (h1 : t1 < 256)
    (h5 : t0 &&& 0x1f = 0x1f) (h5' : t1 &&& 0x1f ≠ 0x1f) :
    readTag (t0 :: t1 :: rest)
      = .ok ((t0 <<< 8) ||| (t1 &&& 0x7f), t0 &&& 0x20 == 0x20, rest) := by
  simp only [readTag, and_ff_of_lt h0, and_ff_of_lt h1]
  rw [if_pos (by simpa using h5), if_neg (by simpa using h5')]

/-- Tag stage failure: a 2-byte tag whose second byte also has all low
5 bits set is rejected. -/
theorem readTag_double_err {t0 t1 : Nat} (rest : List Nat) (h0 : t0 < 256) (h1 : t1 < 256)
    (h5 : t0 &&& 0x1f = 0x1f) (h5' : t1 &&& 0x1f = 0x1f) :
    readTag (t0 :: t1 :: rest) = .err "Only two bytes for tags" := by
  simp only [readTag, and_ff_of_lt h0, and_ff_of_lt h1]
  rw [if_pos (by simpa using h5), if_pos (by simpa using h5')]

/-- The composite flag returned by the tag stage is bit 0x20 of the
first byte (masked to a byte), whatever the tag turns out to be. -/
theorem readTag_ok_composite {t0 : Nat} {rest d1 : List Nat} {t : Nat} {c : Bool}
    (h : readTag (t0 :: rest) = .ok (t, c, d1)) :
    c = ((t0 &&& 0xff) &&& 0x20 == 0x20) := by
  simp only [readTag] at h
  split at h
  · match rest with
    | [] => simp at h
    | t2 :: rest2 =>
      simp only at h
      split at h
      · exact absurd h (by simp)
      · simp only [PResult.ok.injEq, Prod.mk.injEq] at h
        exact h.2.1.symm
  · simp only [PResult.ok.injEq, Prod.mk.injEq] at h
    exact h.2.1.symm

/-- A successful tag stage consumed one or two bytes from the front. -/
theorem readTag_ok_drop {x : List Nat} {t : Nat} {c : Bool} {d1 : List Nat}
    (h : readTag x = .ok (t, c, d1)) :
    ∃ nt, (nt = 1 ∨ nt = 2) ∧ d1 = x.drop nt := by
  match x with
  | [] => simp [readTag] at h
  | t0 :: rest =>
    simp only [readTag] at h
    split at h
    · match rest with
      | [] => simp at h
      | t2 :: rest2 =>
        simp only at h
        split at h
        · exact absurd h (by simp)
        · simp only [PResult.ok.injEq, Prod.mk.injEq] at h
          exact ⟨2, Or.inr rfl, h.2.2.symm⟩
    · simp only [PResult.ok.injEq, Prod.mk.injEq] at h
      exact ⟨1, Or.inl rfl, h.2.2.symm⟩

/-- A successful length stage consumed one, two or three bytes from
the front. -/
theorem readLen_ok_drop {x : List Nat} {l : Nat} {d : List Nat}
    (h : readLen x = .ok (l, d)) :
    ∃ nl, (nl = 1 ∨ nl = 2 ∨ nl = 3) ∧ d = x.drop nl := by
  match x with
  | [] => simp [readLen] at h
  | l0 :: rest =>
    simp only [readLen] at h
    split at h
    · match rest with
      | [] => simp at h
      | b :: rest2 =>
        simp only [PResult.ok.injEq, Prod.mk.injEq] at h
        exact ⟨2, Or.inr (Or.inl rfl), h.2.symm⟩
    · split at h
      · match rest with
        | [] => simp at h
        | b :: rest2 =>
          match rest2 with
          | [] => simp at h
          | b2 :: rest3 =>
            simp only [PResult.ok.injEq, Prod.mk.injEq] at h
            exact ⟨3, Or.inr (Or.inr rfl), h.2.symm⟩
      · split at h
        · exact absurd h (by simp)
        · simp only [PResult.ok.injEq, Prod.mk.injEq] at h
          exact ⟨1, Or.inl rfl, h.2.symm⟩

/-- The only error message the length stage produces is the
invalid-length one. -/
theorem readLen_err_msg {x : List Nat} {e : String}
    (h : readLen x = .err e) : e = "Invalid length field!" := by
  match x with
  | [] => simp [readLen] at h
  | l0 :: rest =>
    simp only [readLen] at h
    split at h
    · match rest with
      | [] => simp at h
      | b :: rest2 => simp at h
    · split at h
      · match rest with
        | [] => simp at h
        | b :: rest2 =>
          match rest2 with
          | [] => simp at h
          | b2 :: rest3 => simp at h
      · split at h
        · simp only [PResult.err.injEq] at h
          exact h.symm
        · exact absurd h (by simp)

/-- C5 (code behaviour at the failing input): on the malformed buffer
`[0x4F, 0x05]` — tag 0x4F, declared length 5, but no value bytes left —
`read_single` panics (the `drain`/slice of 5 bytes out of an empty
buffer is out of bounds) instead of returning a typed decode error,
and `read_list` panics on the same buffer as well. -/
theorem tlv_truncated_value_panics :
    read_single [0x4F, 0x05] false = .panic
    ∧ read_single [0x4F, 0x05] true = .panic
    ∧ read_list [0x4F, 0x05] false = .panic := by
  have h1 : readTag [0x4F, 0x05] = .ok (0x4F, false, [0x05]) := by decide
  have h2 : readLen [0x05] = .ok (5, []) := by decide
  have hf : read_single [0x4F, 0x05] false = .panic := by
    rw [read_single_step false h1 h2]
    simp
  refine ⟨hf, ?_, ?_⟩
  · rw [read_single_step true h1 h2]
    simp
  · rw [read_list_cons]
    norm_num [hf]

/-- C6: `read_single` decodes the TLV length as follows: a first
length byte below 0x80 is the length itself; 0x81 is followed by one
byte which is the length; 0x82 is followed by two bytes combined
big-endian (`(x <<< 8) ||| y = 256 * x + y`) into a 16-bit length; for
any other first length byte at least 0x80 the invalid-length error is
returned and no node is produced. -/
theorem length_decoding :
    (∀ b rest, b < 0x80 → readLen (b :: rest) = .ok (b, rest))
    ∧ (∀ x rest, x < 256 → readLen (0x81 :: x :: rest) = .ok (x, rest))
    ∧ (∀ x y rest, x < 256 → y < 256 →
        readLen (0x82 :: x :: y :: rest) = .ok ((x <<< 8) ||| y, rest)
        ∧ (x <<< 8) ||| y = 256 * x + y)
    ∧ (∀ b rest, 0x80 ≤ b → b < 256 → b ≠ 0x81 → b ≠ 0x82 →
        readLen (b :: rest) = .err "Invalid length field!")
    ∧ (∀ t0 b rest r, t0 < 256 → t0 &&& 0x1f ≠ 0x1f → 0x80 ≤ b → b < 256 →
        b ≠ 0x81 → b ≠ 0x82 →
        read_single (t0 :: b :: rest) r = .err "Invalid length field!") := by
  have herr : ∀ b rest, 0x80 ≤ b → b < 256 → b ≠ 0x81 → b ≠ 0x82 →
      readLen (b :: rest) = .err "Invalid length field!" := by
    intro b rest h80 h256 h81 h82
    simp only [readLen, and_ff_of_lt h256]
    rw [if_neg (by simpa using h81), if_neg (by simpa using h82), if_pos h80]
  refine ⟨?_, ?_, ?_, herr, ?_⟩
  · intro b rest hb
    simp only [readLen, and_ff_of_lt (by omega : b < 256)]
    rw [if_neg (by simp; omega), if_neg (by simp; omega), if_neg (by omega)]
  · intro x rest hx
    simp only [readLen, and_ff_of_lt hx]
    rw [if_pos (by decide)]
  · intro x y rest hx hy
    refine ⟨?_, shiftLeft8_or_eq x y hy⟩
    simp only [readLen, and_ff_of_lt hx, and_ff_of_lt hy]
    rw [if_neg (by decide), if_pos (by decide)]
  · intro t0 b rest r ht0 ht5 h80 h256 h81 h82
    exact read_single_len_err r
      (readTag_single (b :: rest) ht0 ht5) (herr b rest h80 h256 h81 h82)

/-- Witness for C6: concrete length decodes — short form, 0x81 form,
0x82 form, the rejected 0x83 form, and the rejected form surfacing
through `read_single`. -/
theorem length_decoding_witness :
    readLen [0x05, 0xAA] = .ok (5, [0xAA])
    ∧ readLen [0x81, 0xC8, 0xAA] = .ok (0xC8, [0xAA])
    ∧ readLen [0x82, 0x01, 0x2C, 0xAA] = .ok ((0x01 <<< 8) ||| 0x2C, [0xAA])
    ∧ (0x01 <<< 8) ||| 0x2C = 256 * 0x01 + 0x2C
    ∧ readLen [0x83, 0xAA] = .err "Invalid length field!"
    ∧ read_single [0x4F, 0x83, 0xAA] false = .err "Invalid length field!" := by
  obtain ⟨h1, h2, h3, h4, h5⟩ := length_decoding
  have h3' := h3 0x01 0x2C [0xAA] (by norm_num) (by norm_num)
  exact ⟨h1 0x05 [0xAA] (by norm_num), h2 0xC8 [0xAA] (by norm_num),
    h3'.1, h3'.2,
    h4 0x83 [0xAA] (by norm_num) (by norm_num) (by norm_num) (by norm_num),
    h5 0x4F 0x83 [0xAA] false (by norm_num) (by decide) (by norm_num) (by norm_num)
      (by norm_num) (by norm_num)⟩

/-- Once the tag stage has succeeded, `read_single` can no longer
produce the two-byte-tag error (the length stage only errors with the
invalid-length message and the remaining branches return a result or
panic). -/
theorem read_single_not_tag_err {x : List Nat} {t : Nat} {c : Bool} {d1 : List Nat}
    (r : Bool) (h1 : readTag x = .ok (t, c, d1)) :
    read_single x r ≠ .err "Only two bytes for tags" := by
  match h2 : readLen d1 with
  | .panic =>
    rw [read_single_len_panic r h1 h2]
    simp
  | .err e =>
    rw [read_single_len_err r h1 h2]
    have he := readLen_err_msg h2
    subst he
    simp only [ne_eq, PResult.err.injEq]
    decide
  | .ok (l, d) =>
    rw [read_single_step r h1 h2]
    split
    · split
      · split
        · split <;> simp
        · simp
      · simp
    · simp

/-- C7: `read_single` decodes the tag by reading one byte: if that
byte's low 5 bits are not all set it is the complete 1-byte tag and
the constructed flag is bit 0x20 of it; if the low 5 bits are all set,
a second byte is read and the 16-bit tag value is
`(first <<< 8) ||| (second &&& 0x7F)`; `read_single` returns the
two-byte-tag error exactly when that second byte's low 5 bits are also
all set. -/
theorem tag_decoding :
    (∀ t0 rest, t0 < 256 → t0 &&& 0x1f ≠ 0x1f →
       readTag (t0 :: rest) = .ok (t0, t0 &&& 0x20 == 0x20, rest))
    ∧ (∀ t0 t1 rest, t0 < 256 → t1 < 256 → t0 &&& 0x1f = 0x1f → t1 &&& 0x1f ≠ 0x1f →
       readTag (t0 :: t1 :: rest)
         = .ok ((t0 <<< 8) ||| (t1 &&& 0x7f), t0 &&& 0x20 == 0x20, rest))
    ∧ (∀ t0 t1 rest r, t0 < 256 → t1 < 256 → t0 &&& 0x1f = 0x1f →
       (read_single (t0 :: t1 :: rest) r = .err "Only two bytes for tags"
         ↔ t1 &&& 0x1f = 0x1f)) := by
  refine ⟨fun t0 rest h h5 => readTag_single rest h h5,
    fun t0 t1 rest h0 h1 h5 h5' => readTag_double rest h0 h1 h5 h5', ?_⟩
  intro t0 t1 rest r h0 h1 h5
  constructor
  · intro herr
    by_contra h5'
    exact read_single_not_tag_err r (readTag_double rest h0 h1 h5 h5') herr
  · intro h5'
    exact read_single_tag_err r (readTag_double_err rest h0 h1 h5 h5')

/-- Witness for C7: concrete tag decodes — the 1-byte tag 0x6E
(constructed), the 2-byte tag 0x5F52, and the rejected extension
0x5F 0x7F through `read_single`. -/
theorem tag_decoding_witness :
    readTag [0x6E, 0x00] = .ok (0x6E, 0x6E &&& 0x20 == 0x20, [0x00])
    ∧ readTag [0x5F, 0x52, 0x00] = .ok ((0x5F <<< 8) ||| (0x52 &&& 0x7f),
        0x5F &&& 0x20 == 0x20, [0x00])
    ∧ (read_single [0x5F, 0x7F, 0x00] false = .err "Only two bytes for tags"
        ↔ (0x7F : Nat) &&& 0x1f = 0x1f)
    ∧ ((0x5F : Nat) <<< 8) ||| (0x52 &&& 0x7f) = 0x5F52 := by
  obtain ⟨h1, h2, h3⟩ := tag_decoding
  exact ⟨h1 0x6E [0x00] (by norm_num) (by decide),
    h2 0x5F 0x52 [0x00] (by norm_num) (by norm_num) (by decide) (by decide),
    h3 0x5F 0x7F [0x00] false (by norm_num) (by norm_num) (by decide),
    by decide⟩

/-- C2 (amended): for every buffer whose first tag byte has the
constructed bit 0x20 set, a successful `read_single` with
`recursive = true` stores the declared-length prefix of the
post-length-field bytes as the node's value, populates the node's
`subs` by running the forest decoder over the entire remaining buffer
after the length field (not merely the value byte range), and returns
an empty remaining buffer. -/
theorem read_single_composite_recursive (t0 : Nat) (rest : List Nat) (tlv : TLV)
    (rem : List Nat) (hb : t0 < 256) (hcomp : t0 &&& 0x20 = 0x20)
    (hok : read_single (t0 :: rest) true = .ok (tlv, rem)) :
    rem = []
    ∧ ∃ d1 l d, (d1 = rest ∨ ∃ t1 rest2, rest = t1 :: rest2 ∧ d1 = rest2)
        ∧ readLen d1 = .ok (l, d)
        ∧ tlv.l = l ∧ l ≤ d.length ∧ tlv.v = d.take l
        ∧ read_list d true = .ok tlv.subs := by
  match h1 : readTag (t0 :: rest) with
  | .panic =>
    rw [read_single_tag_panic true h1] at hok
    exact absurd hok (by simp)
  | .err e =>
    rw [read_single_tag_err true h1] at hok
    exact absurd hok (by simp)
  | .ok (t, c, d1) =>
    have hc : c = true := by
      rw [readTag_ok_composite h1, and_ff_of_lt hb]
      simpa using hcomp
    subst hc
    have hdisj : d1 = rest ∨ ∃ t1 rest2, rest = t1 :: rest2 ∧ d1 = rest2 := by
      obtain ⟨nt, hnt, hd1⟩ := readTag_ok_drop h1
      rcases hnt with rfl | rfl
      · left
        simpa using hd1
      · match rest with
        | [] =>
          left
          simpa using hd1
        | t1 :: rest2 =>
          right
          exact ⟨t1, rest2, rfl, by simpa using hd1⟩
    match h2 : readLen d1 with
    | .panic =>
      rw [read_single_len_panic true h1 h2] at hok
      exact absurd hok (by simp)
    | .err e =>
      rw [read_single_len_err true h1 h2] at hok
      exact absurd hok (by simp)
    | .ok (l, d) =>
      rw [read_single_step true h1 h2] at hok
      by_cases hle : l ≤ d.length
      · rw [if_pos hle, if_pos rfl, if_pos rfl] at hok
        match h3 : read_list d true with
        | .ok subs =>
          rw [h3] at hok
          simp only [PResult.ok.injEq, Prod.mk.injEq] at hok
          obtain ⟨htlv, hrem⟩ := hok
          subst htlv
          subst hrem
          exact ⟨rfl, d1, l, d, hdisj, h2, rfl, hle, rfl, h3⟩
        | .err e =>
          rw [h3] at hok
          exact absurd hok (by simp)
        | .panic =>
          rw [h3] at hok
          exact absurd hok (by simp)
      · rw [if_neg hle] at hok
        exact absurd hok (by simp)

/-- Counterexample to C2 as stated: on the buffer
`[0x21, 0x00, 0x4F, 0x00]` (constructed tag 0x21 with declared length
0 followed by two further bytes), the forest decoder is run over the
two bytes after the length field rather than over the empty value byte
range, so `subs` holds one node where the claim predicts none. -/
theorem read_single_composite_cex :
    read_single [0x21, 0x00, 0x4F, 0x00] true
      = .ok (⟨0x21, 0, [], [⟨0x4F, 0, [], []⟩]⟩, [])
    ∧ read_list (List.take 0 [0x4F, 0x00]) true = .ok []
    ∧ ([⟨0x4F, 0, [], []⟩] : List TLV).length ≠ ([] : List TLV).length := by
  have h79 : read_single [0x4F, 0x00] true = .ok (⟨0x4F, 0, [], []⟩, []) := by
    rw [read_single_step true (by decide : readTag [0x4F, 0x00] = .ok (0x4F, false, [0x00]))
      (by decide : readLen [0x00] = .ok (0, []))]
    rfl
  have hl : read_list [0x4F, 0x00] true = .ok [⟨0x4F, 0, [], []⟩] := by
    rw [read_list_cons]
    norm_num [h79, read_list_nil]
  refine ⟨?_, read_list_nil true, by decide⟩
  rw [read_single_step true
    (by decide : readTag [0x21, 0x00, 0x4F, 0x00] = .ok (0x21, true, [0x00, 0x4F, 0x00]))
    (by decide : readLen [0x00, 0x4F, 0x00] = .ok (0, [0x4F, 0x00]))]
  norm_num [hl]

/-- Witness for C2 (amended): on `[0x21, 0x02, 0x4F, 0x00]` the
declared length 2 covers the whole remainder after the length field,
the value is `[0x4F, 0x00]`, the subs hold the decoded 0x4F node and
the reported remainder is empty. -/
theorem read_single_composite_recursive_witness :
    ([] : List Nat) = []
    ∧ ∃ d1 l d,
        (d1 = [0x02, 0x4F, 0x00]
          ∨ ∃ t1 rest2, [0x02, 0x4F, 0x00] = t1 :: rest2 ∧ d1 = rest2)
        ∧ readLen d1 = .ok (l, d)
        ∧ (⟨0x21, 2, [0x4F, 0x00], [⟨0x4F, 0, [], []⟩]⟩ : TLV).l = l
        ∧ l ≤ d.length
        ∧ (⟨0x21, 2, [0x4F, 0x00], [⟨0x4F, 0, [], []⟩]⟩ : TLV).v = d.take l
        ∧ read_list d true
            = .ok (⟨0x21, 2, [0x4F, 0x00], [⟨0x4F, 0, [], []⟩]⟩ : TLV).subs := by
  apply read_single_composite_recursive 0x21 [0x02, 0x4F, 0x00]
    (⟨0x21, 2, [0x4F, 0x00], [⟨0x4F, 0, [], []⟩]⟩ : TLV) [] (by norm_num) (by decide)
  have h79 : read_single [0x4F, 0x00] true = .ok (⟨0x4F, 0, [], []⟩, []) := by
    rw [read_single_step true (by decide : readTag [0x4F, 0x00] = .ok (0x4F, false, [0x00]))
      (by decide : readLen [0x00] = .ok (0, []))]
    rfl
  have hl : read_list [0x4F, 0x00] true = .ok [⟨0x4F, 0, [], []⟩] := by
    rw [read_list_cons]
    norm_num [h79, read_list_nil]
  rw [read_single_step true
    (by decide : readTag [0x21, 0x02, 0x4F, 0x00] = .ok (0x21, true, [0x02, 0x4F, 0x00]))
    (by decide : readLen [0x02, 0x4F, 0x00] = .ok (2, [0x4F, 0x00]))]
  norm_num [hl]

/-- C3 (amended): for every successful `read_single` call on a buffer
whose (first-byte) tag is non-constructed — with either value of the
`recursive` flag — the returned remaining buffer is the input with the
tag byte(s), the length byte(s), and exactly the declared-length value
bytes removed from the front.  (For constructed tags with
`recursive = false` the value bytes are copied, not consumed, and stay
in the remainder.) -/
theorem read_single_primitive_consumes (t0 : Nat) (rest : List Nat) (r : Bool)
    (tlv : TLV) (rem : List Nat) (hb : t0 < 256) (hprim : t0 &&& 0x20 ≠ 0x20)
    (hok : read_single (t0 :: rest) r = .ok (tlv, rem)) :
    ∃ nt nl, (nt = 1 ∨ nt = 2) ∧ (nl = 1 ∨ nl = 2 ∨ nl = 3)
      ∧ tlv.v = ((t0 :: rest).drop (nt + nl)).take tlv.l
      ∧ tlv.l ≤ ((t0 :: rest).drop (nt + nl)).length
      ∧ rem = (t0 :: rest).drop (nt + nl + tlv.l)
      ∧ (t0 :: rest) = (t0 :: rest).take (nt + nl) ++ tlv.v ++ rem := by
  match h1 : readTag (t0 :: rest) with
  | .panic =>
    rw [read_single_tag_panic r h1] at hok
    exact absurd hok (by simp)
  | .err e =>
    rw [read_single_tag_err r h1] at hok
    exact absurd hok (by simp)
  | .ok (t, c, d1) =>
    have hc : c = false := by
      rw [readTag_ok_composite h1, and_ff_of_lt hb]
      simpa using hprim
    subst hc
    obtain ⟨nt, hnt, hd1⟩ := readTag_ok_drop h1
    match h2 : readLen d1 with
    | .panic =>
      rw [read_single_len_panic r h1 h2] at hok
      exact absurd hok (by simp)
    | .err e =>
      rw [read_single_len_err r h1 h2] at hok
      exact absurd hok (by simp)
    | .ok (l, d) =>
      obtain ⟨nl, hnl, hd⟩ := readLen_ok_drop h2
      have hdrop : d = (t0 :: rest).drop (nt + nl) := by
        rw [hd, hd1, List.drop_drop]
      rw [read_single_step r h1 h2] at hok
      by_cases hle : l ≤ d.length
      · rw [if_pos hle, if_neg (by simp)] at hok
        simp only [PResult.ok.injEq, Prod.mk.injEq] at hok
        obtain ⟨htlv, hrem⟩ := hok
        subst htlv
        subst hrem
        refine ⟨nt, nl, hnt, hnl, by rw [← hdrop], by rw [← hdrop]; exact hle, ?_, ?_⟩
        · show d.drop l = (t0 :: rest).drop (nt + nl + l)
          rw [hdrop, List.drop_drop]
        · have hv : ({ t := t, l := l, v := List.take l d, subs := [] } : TLV).v
              = List.take l d := rfl
          rw [hv, List.append_assoc, List.take_append_drop, hdrop, List.take_append_drop]
      · rw [if_neg hle] at hok
        exact absurd hok (by simp)

/-- Counterexample to C3 as stated: on `[0x21, 0x01, 0xAA]` — a
constructed tag read with `recursive = false` — the value byte 0xAA is
only copied, not consumed, so the remainder still contains it while
the claim predicts the empty remainder (input minus one tag byte, one
length byte and one value byte). -/
theorem read_single_composite_nonrecursive_cex :
    read_single [0x21, 0x01, 0xAA] false = .ok (⟨0x21, 1, [0xAA], []⟩, [0xAA])
    ∧ ([0xAA] : List Nat) ≠ [0x21, 0x01, 0xAA].drop (1 + 1 + 1) := by
  refine ⟨?_, by decide⟩
  rw [read_single_step false
    (by decide : readTag [0x21, 0x01, 0xAA] = .ok (0x21, true, [0x01, 0xAA]))
    (by decide : readLen [0x01, 0xAA] = .ok (1, [0xAA]))]
  rfl

/-- Witness for C3 (amended): on `[0x4F, 0x01, 0xAA, 0x77]` the
primitive tag 0x4F with declared length 1 consumes one tag byte, one
length byte and the value byte 0xAA, leaving `[0x77]`. -/
theorem read_single_primitive_consumes_witness :
    ∃ nt nl, (nt = 1 ∨ nt = 2) ∧ (nl = 1 ∨ nl = 2 ∨ nl = 3)
      ∧ (⟨0x4F, 1, [0xAA], []⟩ : TLV).v
          = (([0x4F, 0x01, 0xAA, 0x77] : List Nat).drop (nt + nl)).take
              (⟨0x4F, 1, [0xAA], []⟩ : TLV).l
      ∧ (⟨0x4F, 1, [0xAA], []⟩ : TLV).l
          ≤ (([0x4F, 0x01, 0xAA, 0x77] : List Nat).drop (nt + nl)).length
      ∧ [0x77] = ([0x4F, 0x01, 0xAA, 0x77] : List Nat).drop
          (nt + nl + (⟨0x4F, 1, [0xAA], []⟩ : TLV).l)
      ∧ ([0x4F, 0x01, 0xAA, 0x77] : List Nat)
          = ([0x4F, 0x01, 0xAA, 0x77] : List Nat).take (nt + nl)
            ++ (⟨0x4F, 1, [0xAA], []⟩ : TLV).v ++ [0x77] := by
  apply read_single_primitive_consumes 0x4F [0x01, 0xAA, 0x77] false
    (⟨0x4F, 1, [0xAA], []⟩ : TLV) [0x77] (by norm_num) (by decide)
  rw [read_single_step false
    (by decide : readTag [0x4F, 0x01, 0xAA, 0x77] = .ok (0x4F, false, [0x01, 0xAA, 0x77]))
    (by decide : readLen [0x01, 0xAA, 0x77] = .ok (1, [0xAA, 0x77]))]
  rfl

/-- C4 (amended): prepending a single 0x00/0xFF filler byte
immediately before a byte that is not itself a filler decodes
identically to the buffer without it; since `read_list` re-enters the
same loop on each reported remainder, this covers one filler before
any top-level object.  (Two consecutive fillers, or a filler at the
very end of the buffer, are not skipped: the loop removes at most one
filler per iteration and then unconditionally parses a TLV.) -/
theorem read_list_filler_skip (f x : Nat) (rest : List Nat) (r : Bool)
    (hf : f = 0x00 ∨ f = 0xFF) (hx0 : x ≠ 0x00) (hxff : x ≠ 0xFF) :
    read_list (f :: x :: rest) r = read_list (x :: rest) r := by
  rw [read_list_cons, read_list_cons]
  have hfb : (f == 0xff || f == 0x00) = true := by
    rcases hf with rfl | rfl <;> rfl
  have hxb : (x == 0xff || x == 0x00) = false := by
    simp [hx0, hxff]
  rw [hfb, hxb]
  simp

/-- Counterexample to C4 as stated: the buffer `[0x00]` is a forest
buffer consisting of a single filler byte, yet it does not decode like
the empty buffer: after skipping the filler the loop unconditionally
calls `read_single` on the empty buffer, which panics. -/
theorem read_list_filler_cex :
    read_list [0x00] true = .panic
    ∧ read_list ([] : List Nat) true = .ok []
    ∧ (PResult.panic : PResult (List TLV)) ≠ .ok [] := by
  refine ⟨?_, read_list_nil true, by simp⟩
  rw [read_list_cons]
  have h : read_single ([] : List Nat) true = .panic :=
    read_single_tag_panic true (by decide)
  norm_num [h]

/-- Witness for C4 (amended): one leading filler byte before the
object `[0x4F, 0x00]` is skipped. -/
theorem read_list_filler_skip_witness :
    read_list [0x00, 0x4F, 0x00] true = read_list [0x4F, 0x00] true :=
  read_list_filler_skip 0x00 0x4F [0x00] true (Or.inl rfl) (by decide) (by decide)
